import Mathlib

/-!
Shallow embedding of the bot3xui repository for specification checking.

Part 1 embeds `src/app/bot/payment_gateways/yookassa.py`:
the YooKassa webhook handler (`webhook_handler`), its remote
confirmation check (`_is_event_confirmed_by_api`) and status
normalization (`_normalize_status`).

Part 2 embeds `src/scripts/generate_legacy_promocodes.py`:
`normalize_days`, `collect_legacy_clients`, `generate_code`,
`insert_promocodes` and the `main` pipeline.

Effects are made explicit: the remote payment lookup is a function
`String → Option RemotePayment` (`none` models the `Payment.find_one`
call raising an exception), downstream status updates are recorded as a
list of `DownstreamCall` values, and the cryptographic random source of
the promocode generator is an explicit stream of charset indices.
-/

namespace Yookassa

/-- Result of the provider payment lookup (`Payment.find_one`): the
remote object's `status` string and `paid` flag, the only two fields the
code reads. -/
structure RemotePayment where
  status : String
  paid : Bool
deriving DecidableEq

/-- Webhook notification event type: `payment.succeeded`,
`payment.canceled`, or any other event kind. -/
inductive EventType where
  | paymentSucceeded
  | paymentCanceled
  | other
deriving DecidableEq

/-- Parsed webhook notification: the claimed event and the referenced
payment id (`none` models a missing/None id; the empty string models an
empty one — both are falsy in Python). -/
structure Notification where
  event : EventType
  paymentId : Option String
deriving DecidableEq

/-- `Yookassa._normalize_status` applied to a string-valued status:
lower-cases it code point by code point (Python `str(value).lower()`). -/
def normalizeStatus (s : String) : String := ⟨s.data.map Char.toLower⟩

/-- `Yookassa._is_event_confirmed_by_api`. The lookup result is passed
in; `none` models `Payment.find_one` raising (the `except` branch
returns `False`). A `payment.succeeded` event is confirmed only by
remote status `succeeded` with `paid`; a `payment.canceled` event only
by remote status `canceled`; any other event is never confirmed. -/
def isEventConfirmedByApi (lookupResult : Option RemotePayment) (event : EventType) : Bool :=
  match lookupResult with
  | none => false
  | some payment =>
    match event with
    | .paymentSucceeded => normalizeStatus payment.status == "succeeded" && payment.paid
    | .paymentCanceled => normalizeStatus payment.status == "canceled"
    | .other => false

/-- A downstream status-update invocation: `handle_payment_succeeded`
or `handle_payment_canceled` with its payment id. -/
inductive DownstreamCall where
  | succeeded (paymentId : String)
  | canceled (paymentId : String)
deriving DecidableEq

/-- Observable outcome of one `webhook_handler` invocation: HTTP status,
whether the remote payment lookup was performed, and the downstream
calls made, in order. -/
structure WebhookOutcome where
  status : Nat
  lookupPerformed : Bool
  calls : List DownstreamCall
deriving DecidableEq

/-- `Yookassa.webhook_handler`. `parsed` is the result of parsing the
request body into a notification (`none`: the body is unparsable and the
surrounding `except` returns 400). `lookupApi` is the provider payment
lookup by id. The source-IP trust check is omitted: it only logs and
gates nothing. A missing or empty payment id yields 400 before any
lookup; an unconfirmed event yields 403 with no downstream call;
confirmed `succeeded`/`canceled` events dispatch exactly one downstream
call and yield 200; any other event yields 400. -/
def webhook_handler (parsed : Option Notification)
    (lookupApi : String → Option RemotePayment) : WebhookOutcome :=
  match parsed with
  | none => ⟨400, false, []⟩
  | some n =>
    match n.paymentId with
    | none => ⟨400, false, []⟩
    | some pid =>
      if pid = "" then ⟨400, false, []⟩
      else if !(isEventConfirmedByApi (lookupApi pid) n.event) then ⟨403, true, []⟩
      else
        match n.event with
        | .paymentSucceeded => ⟨200, true, [.succeeded pid]⟩
        | .paymentCanceled => ⟨200, true, [.canceled pid]⟩
        | .other => ⟨400, true, []⟩

/-- The mismatch condition of claim C1, written from the claim's own
words: the provider lookup's status/paid flags do not match the claimed
event type (`succeeded` requires remote status `succeeded` and paid;
`canceled` requires remote status `canceled`; any other event is
unconfirmed). -/
def lookupMismatch (payment : RemotePayment) (event : EventType) : Prop :=
  match event with
  | .paymentSucceeded => ¬(normalizeStatus payment.status = "succeeded" ∧ payment.paid = true)
  | .paymentCanceled => normalizeStatus payment.status ≠ "canceled"
  | .other => True

/-- A successful lookup whose fields mismatch the claimed event type is
never confirmed. -/
theorem confirmed_eq_false_of_mismatch (payment : RemotePayment) (ev : EventType)
    (hmis : lookupMismatch payment ev) :
    isEventConfirmedByApi (some payment) ev = false := by
  cases ev with
  | paymentSucceeded =>
    show (normalizeStatus payment.status == "succeeded" && payment.paid) = false
    cases hcase : (normalizeStatus payment.status == "succeeded" && payment.paid) with
    | false => rfl
    | true =>
      rw [Bool.and_eq_true, beq_iff_eq] at hcase
      exact absurd (And.intro hcase.1 hcase.2) hmis
  | paymentCanceled =>
    show (normalizeStatus payment.status == "canceled") = false
    cases hcase : (normalizeStatus payment.status == "canceled") with
    | false => rfl
    | true => exact absurd (by rwa [beq_iff_eq] at hcase) hmis
  | other => rfl

end Yookassa

namespace Yookassa

/-- C1: whenever the payment id is present (non-empty) but the remote
lookup's status/paid flags do not match the claimed event type, the
handler returns 403 and makes no downstream call. -/
theorem webhook_mismatch_rejected (ev : EventType) (pid : String)
    (lookupApi : String → Option RemotePayment) (payment : RemotePayment)
    (hne : pid ≠ "") (hlook : lookupApi pid = some payment)
    (hmis : lookupMismatch payment ev) :
    webhook_handler (some ⟨ev, some pid⟩) lookupApi = ⟨403, true, []⟩ := by
  have hconf : isEventConfirmedByApi (lookupApi pid) ev = false := by
    rw [hlook]
    exact confirmed_eq_false_of_mismatch payment ev hmis
  cases ev with
  | paymentSucceeded =>
    show (if pid = "" then (⟨400, false, []⟩ : WebhookOutcome)
      else if !(isEventConfirmedByApi (lookupApi pid) EventType.paymentSucceeded) then
        ⟨403, true, []⟩
      else ⟨200, true, [.succeeded pid]⟩) = ⟨403, true, []⟩
    rw [if_neg hne, hconf]
    rfl
  | paymentCanceled =>
    show (if pid = "" then (⟨400, false, []⟩ : WebhookOutcome)
      else if !(isEventConfirmedByApi (lookupApi pid) EventType.paymentCanceled) then
        ⟨403, true, []⟩
      else ⟨200, true, [.canceled pid]⟩) = ⟨403, true, []⟩
    rw [if_neg hne, hconf]
    rfl
  | other =>
    show (if pid = "" then (⟨400, false, []⟩ : WebhookOutcome)
      else if !(isEventConfirmedByApi (lookupApi pid) EventType.other) then
        ⟨403, true, []⟩
      else ⟨400, true, []⟩) = ⟨403, true, []⟩
    rw [if_neg hne, hconf]
    rfl

/-- Witness for `webhook_mismatch_rejected` at a concrete input. -/
theorem webhook_mismatch_rejected_witness :
    webhook_handler (some ⟨EventType.paymentSucceeded, some "p1"⟩)
      (fun _ => some ⟨"pending", false⟩) = ⟨403, true, []⟩ :=
  webhook_mismatch_rejected EventType.paymentSucceeded "p1"
    (fun _ => some ⟨"pending", false⟩) ⟨"pending", false⟩ (by decide) rfl
    (by show ¬(normalizeStatus "pending" = "succeeded" ∧ false = true); decide)

/-- C2: a `payment.succeeded` event whose remote lookup reports
normalized status `succeeded` with paid, and a `payment.canceled` event
whose remote lookup reports normalized status `canceled`, each return
200 with exactly one corresponding downstream call for that payment id. -/
theorem webhook_confirmed_dispatches (pid : String)
    (lookupApi : String → Option RemotePayment) (payment : RemotePayment)
    (hne : pid ≠ "") (hlook : lookupApi pid = some payment) :
    (normalizeStatus payment.status = "succeeded" → payment.paid = true →
      webhook_handler (some ⟨EventType.paymentSucceeded, some pid⟩) lookupApi
        = ⟨200, true, [.succeeded pid]⟩) ∧
    (normalizeStatus payment.status = "canceled" →
      webhook_handler (some ⟨EventType.paymentCanceled, some pid⟩) lookupApi
        = ⟨200, true, [.canceled pid]⟩) := by
  constructor
  · intro hs hp
    have hconf : isEventConfirmedByApi (lookupApi pid) EventType.paymentSucceeded = true := by
      rw [hlook]
      show (normalizeStatus payment.status == "succeeded" && payment.paid) = true
      rw [hs, hp]
      rfl
    show (if pid = "" then (⟨400, false, []⟩ : WebhookOutcome)
      else if !(isEventConfirmedByApi (lookupApi pid) EventType.paymentSucceeded) then
        ⟨403, true, []⟩
      else ⟨200, true, [.succeeded pid]⟩) = ⟨200, true, [.succeeded pid]⟩
    rw [if_neg hne, hconf]
    rfl
  · intro hs
    have hconf : isEventConfirmedByApi (lookupApi pid) EventType.paymentCanceled = true := by
      rw [hlook]
      show (normalizeStatus payment.status == "canceled") = true
      rw [hs]
      rfl
    show (if pid = "" then (⟨400, false, []⟩ : WebhookOutcome)
      else if !(isEventConfirmedByApi (lookupApi pid) EventType.paymentCanceled) then
        ⟨403, true, []⟩
      else ⟨200, true, [.canceled pid]⟩) = ⟨200, true, [.canceled pid]⟩
    rw [if_neg hne, hconf]
    rfl

/-- Witness for `webhook_confirmed_dispatches` at a concrete input. -/
theorem webhook_confirmed_dispatches_witness :
    webhook_handler (some ⟨EventType.paymentSucceeded, some "p2"⟩)
      (fun _ => some ⟨"succeeded", true⟩) = ⟨200, true, [.succeeded "p2"]⟩ :=
  (webhook_confirmed_dispatches "p2" (fun _ => some ⟨"succeeded", true⟩)
    ⟨"succeeded", true⟩ (by decide) rfl).1
    (by show normalizeStatus "succeeded" = "succeeded"; decide) rfl

/-- C3: when the remote payment lookup raises (modelled as `none`), the
event is unconfirmed for every event type, and the handler returns 403
with no downstream call (fail closed). -/
theorem webhook_lookup_failure_fails_closed (ev : EventType) (pid : String)
    (lookupApi : String → Option RemotePayment)
    (hne : pid ≠ "") (hlook : lookupApi pid = none) :
    (∀ event : EventType, isEventConfirmedByApi none event = false) ∧
    webhook_handler (some ⟨ev, some pid⟩) lookupApi = ⟨403, true, []⟩ := by
  refine ⟨fun event => rfl, ?_⟩
  have hconf : isEventConfirmedByApi (lookupApi pid) ev = false := by
    rw [hlook]
    cases ev <;> rfl
  cases ev with
  | paymentSucceeded =>
    show (if pid = "" then (⟨400, false, []⟩ : WebhookOutcome)
      else if !(isEventConfirmedByApi (lookupApi pid) EventType.paymentSucceeded) then
        ⟨403, true, []⟩
      else ⟨200, true, [.succeeded pid]⟩) = ⟨403, true, []⟩
    rw [if_neg hne, hconf]
    rfl
  | paymentCanceled =>
    show (if pid = "" then (⟨400, false, []⟩ : WebhookOutcome)
      else if !(isEventConfirmedByApi (lookupApi pid) EventType.paymentCanceled) then
        ⟨403, true, []⟩
      else ⟨200, true, [.canceled pid]⟩) = ⟨403, true, []⟩
    rw [if_neg hne, hconf]
    rfl
  | other =>
    show (if pid = "" then (⟨400, false, []⟩ : WebhookOutcome)
      else if !(isEventConfirmedByApi (lookupApi pid) EventType.other) then
        ⟨403, true, []⟩
      else ⟨400, true, []⟩) = ⟨403, true, []⟩
    rw [if_neg hne, hconf]
    rfl

/-- Witness for `webhook_lookup_failure_fails_closed` at a concrete input. -/
theorem webhook_lookup_failure_fails_closed_witness :
    webhook_handler (some ⟨EventType.paymentSucceeded, some "p3"⟩) (fun _ => none)
      = ⟨403, true, []⟩ :=
  (webhook_lookup_failure_fails_closed EventType.paymentSucceeded "p3"
    (fun _ => none) (by decide) rfl).2

/-- C4: a notification whose payment id is absent or empty yields 400,
with no remote lookup performed and no downstream call. -/
theorem webhook_missing_payment_id (ev : EventType) (pidOpt : Option String)
    (lookupApi : String → Option RemotePayment)
    (hpid : pidOpt = none ∨ pidOpt = some "") :
    webhook_handler (some ⟨ev, pidOpt⟩) lookupApi = ⟨400, false, []⟩ := by
  rcases hpid with h | h <;> subst h <;> rfl

/-- Witness for `webhook_missing_payment_id` at a concrete input. -/
theorem webhook_missing_payment_id_witness :
    webhook_handler (some ⟨EventType.paymentSucceeded, some ""⟩)
      (fun _ => some ⟨"succeeded", true⟩) = ⟨400, false, []⟩ :=
  webhook_missing_payment_id EventType.paymentSucceeded (some "")
    (fun _ => some ⟨"succeeded", true⟩) (Or.inr rfl)

end Yookassa

namespace LegacyPromo

/-- `MS_PER_DAY = 24 * 60 * 60 * 1000` from
`src/scripts/generate_legacy_promocodes.py`. -/
def MS_PER_DAY : Int := 24 * 60 * 60 * 1000

/-- `CHARSET = string.ascii_uppercase + string.digits`. -/
def CHARSET : List Char :=
  ['A', 'B', 'C', 'D', 'E', 'F', 'G', 'H', 'I', 'J', 'K', 'L', 'M',
   'N', 'O', 'P', 'Q', 'R', 'S', 'T', 'U', 'V', 'W', 'X', 'Y', 'Z',
   '0', '1', '2', '3', '4', '5', '6', '7', '8', '9']

/-- `math.ceil(a / b)` for an integer `a` and positive integer `b`,
expressed with Euclidean integer division. (Python evaluates the inner
division in floating point; that is exact for all magnitudes this
script encounters, and the exact ceiling is what the computation
means.) -/
def ceilDiv (a b : Int) : Int := (a + b - 1) / b

/-- `normalize_days` from the script: remaining days until expiry,
clamped to 0 when already expired or below the minimum threshold. -/
def normalize_days (expiry_time_ms now_ms min_days : Int) : Int :=
  let remaining_ms := expiry_time_ms - now_ms
  if remaining_ms ≤ 0 then 0
  else
    let remaining_days := ceilDiv remaining_ms MS_PER_DAY
    if remaining_days < min_days then 0
    else remaining_days

/-- Python `str.strip()`: remove leading and trailing whitespace. -/
def pyStrip (s : String) : String :=
  ⟨((s.data.dropWhile Char.isWhitespace).reverse.dropWhile Char.isWhitespace).reverse⟩

/-- Python `str.isdigit()` (restricted to the ASCII digits that occur
here): non-empty and all digits. -/
def pyIsDigit (s : String) : Bool :=
  !s.data.isEmpty && s.data.all Char.isDigit

/-- Python `str.lower()`, code point by code point. -/
def lowerStr (s : String) : String := ⟨s.data.map Char.toLower⟩

/-- One client entry of an inbound's `settings.clients` JSON array:
`email`, `id`, `expiryTime` (milliseconds since epoch). -/
structure Client where
  email : String
  id : String
  expiryTime : Int
deriving DecidableEq

/-- One row of the `inbounds` table: the inbound id and its parsed
settings blob (`none` models `json.loads` raising `JSONDecodeError`). -/
structure Inbound where
  id : Int
  settings : Option (List Client)
deriving DecidableEq

/-- A retained entitlement candidate (a value of the `selected` dict). -/
structure Candidate where
  inbound_id : Int
  email : String
  client_id : String
  days : Int
deriving DecidableEq

/-- A skipped candidate (an entry of the `skipped` list). -/
structure Skip where
  inbound_id : Int
  email : String
  client_id : String
  reason : String
deriving DecidableEq

/-- The collection-stage configuration: the CLI flags read by
`collect_legacy_clients`, plus the sampled current time. -/
structure CollectConfig where
  include_numeric_emails : Bool
  min_days : Int
  unlimited_days : Option Int
  now_ms : Int
deriving DecidableEq

/-- Running state of the collection loop: the `selected` dict as an
insertion-ordered association list keyed by email, and the `skipped`
list. -/
structure CollectState where
  selected : List (String × Candidate)
  skipped : List Skip
deriving DecidableEq

/-- `selected[email] = {...}` guarded by
`if not existing or days > existing["days"]`: Python dict assignment
keeps the original position of an existing key; a later candidate
replaces an earlier one with the same email only if its days value is
strictly greater. -/
def upsert : List (String × Candidate) → Candidate → List (String × Candidate)
  | [], cand => [(cand.email, cand)]
  | (k, v) :: rest, cand =>
    if k = cand.email then
      (if cand.days > v.days then (k, cand) else (k, v)) :: rest
    else
      (k, v) :: upsert rest cand

/-- The body of the per-client loop of `collect_legacy_clients`. -/
def collectStep (cfg : CollectConfig) (ib_id : Int) (acc : CollectState)
    (c : Client) : CollectState :=
  let email := pyStrip c.email
  let client_id := pyStrip c.id
  if email = "" then
    ⟨acc.selected, acc.skipped ++ [⟨ib_id, "", client_id, "empty_email"⟩]⟩
  else if pyIsDigit email && !cfg.include_numeric_emails then acc
  else if c.expiryTime ≤ 0 then
    match cfg.unlimited_days with
    | none =>
      ⟨acc.selected, acc.skipped ++ [⟨ib_id, email, client_id, "unlimited_skipped"⟩]⟩
    | some u =>
      ⟨upsert acc.selected ⟨ib_id, email, client_id, max u cfg.min_days⟩, acc.skipped⟩
  else
    let days := normalize_days c.expiryTime cfg.now_ms cfg.min_days
    if days ≤ 0 then
      ⟨acc.selected, acc.skipped ++ [⟨ib_id, email, client_id, "expired_or_too_small"⟩]⟩
    else
      ⟨upsert acc.selected ⟨ib_id, email, client_id, days⟩, acc.skipped⟩

/-- The per-inbound step: an unparsable settings blob yields one skip
record for the whole inbound; otherwise every client is processed. -/
def collectInbound (cfg : CollectConfig) (acc : CollectState) (ib : Inbound) :
    CollectState :=
  match ib.settings with
  | none =>
    ⟨acc.selected, acc.skipped ++ [⟨ib.id, "", "", "broken_settings_json"⟩]⟩
  | some clients => clients.foldl (collectStep cfg ib.id) acc

/-- The sort key comparison of the final `sorted(..., key=email.lower())`,
as a boolean total preorder. -/
def emailLe (a b : Candidate) : Bool :=
  !decide (lowerStr b.email < lowerStr a.email)

/-- Insert `a` into an already sorted list, before the first element not
strictly below it: used to model Python's stable `sorted`. -/
def insertKeyed (le : Candidate → Candidate → Bool) (a : Candidate) :
    List Candidate → List Candidate
  | [] => [a]
  | b :: bs =>
    if le b a && !(le a b) then b :: insertKeyed le a bs
    else a :: b :: bs

/-- Stable insertion sort: the model of Python's `sorted` (a stable sort
by a total preorder; stability plus sortedness determine the output
uniquely, so any stable sort is extensionally the same function). -/
def sortStable (le : Candidate → Candidate → Bool) : List Candidate → List Candidate
  | [] => []
  | a :: as => insertKeyed le a (sortStable le as)

/-- `collect_legacy_clients`: fold all inbound rows, then sort the
retained candidates case-insensitively by email. The SQL-level
`inbound-id` filter is reflected in the `inbounds` argument itself. -/
def collect_legacy_clients (cfg : CollectConfig) (inbounds : List Inbound) :
    List Candidate × List Skip :=
  let st := inbounds.foldl (collectInbound cfg) ⟨[], []⟩
  (sortStable emailLe (st.selected.map Prod.snd), st.skipped)

/-- `ceilDiv · MS_PER_DAY` is the rational ceiling of division by the
number of milliseconds per day. -/
theorem ceilDiv_eq_ceil_ms (a : Int) :
    ceilDiv a MS_PER_DAY = ⌈(a : ℚ) / (MS_PER_DAY : ℚ)⌉ := by
  have hms : ((MS_PER_DAY : Int) : ℚ) = 86400000 := by norm_num [MS_PER_DAY]
  rw [hms]
  show (a + MS_PER_DAY - 1) / MS_PER_DAY = _
  have hms2 : (MS_PER_DAY : Int) = 86400000 := by norm_num [MS_PER_DAY]
  rw [hms2, eq_comm, Int.ceil_eq_iff]
  have h1 := Int.emod_nonneg (a + 86400000 - 1) (by norm_num : (86400000 : Int) ≠ 0)
  have h2 := Int.emod_lt_of_pos (a + 86400000 - 1) (by norm_num : (0 : Int) < 86400000)
  have h3 := Int.ediv_add_emod (a + 86400000 - 1) 86400000
  constructor
  · rw [lt_div_iff₀ (by norm_num : (0 : ℚ) < 86400000)]
    have : ((a + 86400000 - 1) / 86400000 - 1) * 86400000 < a := by omega
    exact_mod_cast this
  · rw [div_le_iff₀ (by norm_num : (0 : ℚ) < 86400000)]
    have : a ≤ ((a + 86400000 - 1) / 86400000) * 86400000 := by omega
    exact_mod_cast this

/-- C5 counterexample: an expiry of `now + 10 days + 1 minute` yields 11
remaining days (the ceiling of 10 days 1 minute over one day), not 10 as
claimed (at `now = 0` and the default minimum of 1). -/
theorem normalize_days_ten_days_one_minute_cex :
    normalize_days (0 + 10 * MS_PER_DAY + 60000) 0 1 = 11 ∧ (11 : Int) ≠ 10 := by
  constructor
  · decide
  · decide

/-- C5 (amended): for expiry strictly after now, `normalize_days` equals
the rational ceiling of `(expiry - now) / 86,400,000` unless that value
is below the configured minimum, in which case it is 0 (the candidate is
then skipped with reason `expired_or_too_small`); expiry ≤ now yields 0;
`now + 10 days` yields 10 and `now + 10 days + 1 minute` yields 11. -/
theorem normalize_days_spec :
    (∀ e n m : Int, n < e →
      normalize_days e n m =
        if ⌈((e - n : Int) : ℚ) / (MS_PER_DAY : ℚ)⌉ < m then 0
        else ⌈((e - n : Int) : ℚ) / (MS_PER_DAY : ℚ)⌉) ∧
    (∀ e n m : Int, e ≤ n → normalize_days e n m = 0) ∧
    (∀ n : Int, normalize_days (n + 10 * MS_PER_DAY) n 1 = 10) ∧
    (∀ n : Int, normalize_days (n + 10 * MS_PER_DAY + 60000) n 1 = 11) ∧
    (∀ (cfg : CollectConfig) (ib_id : Int) (acc : CollectState) (c : Client),
      pyStrip c.email ≠ "" →
      (pyIsDigit (pyStrip c.email) && !cfg.include_numeric_emails) = false →
      0 < c.expiryTime →
      normalize_days c.expiryTime cfg.now_ms cfg.min_days ≤ 0 →
      collectStep cfg ib_id acc c =
        ⟨acc.selected,
         acc.skipped ++ [⟨ib_id, pyStrip c.email, pyStrip c.id, "expired_or_too_small"⟩]⟩) := by
  refine ⟨?_, ?_, ?_, ?_, ?_⟩
  · intro e n m hlt
    simp only [normalize_days]
    rw [if_neg (by omega : ¬(e - n ≤ 0)), ceilDiv_eq_ceil_ms (e - n)]
  · intro e n m hle
    simp only [normalize_days]
    rw [if_pos (by omega : e - n ≤ 0)]
  · intro n
    simp only [normalize_days]
    have h : n + 10 * MS_PER_DAY - n = 864000000 := by
      simp only [MS_PER_DAY]
      ring
    rw [h]
    decide
  · intro n
    simp only [normalize_days]
    have h : n + 10 * MS_PER_DAY + 60000 - n = 864060000 := by
      simp only [MS_PER_DAY]
      ring
    rw [h]
    decide
  · intro cfg ib_id acc c hne hdig hpos hdays
    simp only [collectStep]
    rw [if_neg hne, if_neg (by rw [hdig]; exact Bool.false_ne_true),
      if_neg (by omega : ¬(c.expiryTime ≤ 0)), if_pos hdays]

/-- Witness for `normalize_days_spec` at a concrete input. -/
theorem normalize_days_spec_witness :
    normalize_days 864060000 0 1 =
      if ⌈((864060000 - 0 : Int) : ℚ) / (MS_PER_DAY : ℚ)⌉ < 1 then 0
      else ⌈((864060000 - 0 : Int) : ℚ) / (MS_PER_DAY : ℚ)⌉ :=
  normalize_days_spec.1 864060000 0 1 (by decide)

/-- C9 counterexample: with minimum threshold 5 and unlimited override 3,
a client with `expiryTime = 0` is retained with days
`max(3, 5) = 5`, not the configured override duration 3. -/
theorem collect_unlimited_override_cex :
    (collectStep ⟨false, 5, some 3, 0⟩ 1 ⟨[], []⟩ ⟨"user@x", "cid", 0⟩).selected.map
        (fun p => p.2.days) = [5] ∧ (5 : Int) ≠ 3 := by
  constructor
  · decide
  · decide

/-- C9 (amended): a client with `expiryTime = 0` (unlimited) is skipped
with reason `unlimited_skipped` when no override duration is configured;
when an override `u` is configured, the candidate is retained with days
`max u min_days` (the override clamped up to the minimum threshold). -/
theorem collect_unlimited_spec (cfg : CollectConfig) (ib_id : Int)
    (acc : CollectState) (c : Client)
    (hne : pyStrip c.email ≠ "")
    (hdig : (pyIsDigit (pyStrip c.email) && !cfg.include_numeric_emails) = false)
    (hexp : c.expiryTime = 0) :
    (cfg.unlimited_days = none →
      collectStep cfg ib_id acc c =
        ⟨acc.selected,
         acc.skipped ++ [⟨ib_id, pyStrip c.email, pyStrip c.id, "unlimited_skipped"⟩]⟩) ∧
    (∀ u : Int, cfg.unlimited_days = some u →
      collectStep cfg ib_id acc c =
        ⟨upsert acc.selected ⟨ib_id, pyStrip c.email, pyStrip c.id, max u cfg.min_days⟩,
         acc.skipped⟩) := by
  constructor
  · intro hu
    simp only [collectStep]
    rw [if_neg hne, if_neg (by rw [hdig]; exact Bool.false_ne_true),
      if_pos (by omega : c.expiryTime ≤ 0), hu]
  · intro u hu
    simp only [collectStep]
    rw [if_neg hne, if_neg (by rw [hdig]; exact Bool.false_ne_true),
      if_pos (by omega : c.expiryTime ≤ 0), hu]

/-- Witness for `collect_unlimited_spec` at a concrete input. -/
theorem collect_unlimited_spec_witness :
    collectStep ⟨false, 5, some 3, 0⟩ 1 ⟨[], []⟩ ⟨"user@x", "cid", 0⟩ =
      ⟨upsert [] ⟨1, pyStrip "user@x", pyStrip "cid", max 3 5⟩, []⟩ :=
  (collect_unlimited_spec ⟨false, 5, some 3, 0⟩ 1 ⟨[], []⟩ ⟨"user@x", "cid", 0⟩
    (by decide) (by decide) rfl).2 3 rfl

/-- Association-list lookup by email key (Python `selected.get(email)`). -/
def findEmail (e : String) : List (String × Candidate) → Option Candidate
  | [] => none
  | (k, v) :: rest => if k = e then some v else findEmail e rest

/-- Every entry of `upsert sel cand` is an entry of `sel` or the new
`(cand.email, cand)` entry. -/
theorem upsert_mem (sel : List (String × Candidate)) (cand : Candidate) :
    ∀ p ∈ upsert sel cand, p ∈ sel ∨ p = (cand.email, cand) := by
  induction sel with
  | nil =>
    intro p hp
    simp only [upsert, List.mem_singleton] at hp
    exact Or.inr hp
  | cons q rest ih =>
    obtain ⟨k, v⟩ := q
    intro p hp
    by_cases hk : k = cand.email
    · simp only [upsert, if_pos hk, List.mem_cons] at hp
      rcases hp with hp | hp
      · by_cases hd : cand.days > v.days
        · rw [if_pos hd] at hp
          exact Or.inr (by rw [hp, hk])
        · rw [if_neg hd] at hp
          exact Or.inl (by rw [hp]; exact List.mem_cons_self _ _)
      · exact Or.inl (List.mem_cons_of_mem _ hp)
    · simp only [upsert, if_neg hk, List.mem_cons] at hp
      rcases hp with hp | hp
      · exact Or.inl (by rw [hp]; exact List.mem_cons_self _ _)
      · rcases ih p hp with h | h
        · exact Or.inl (List.mem_cons_of_mem _ h)
        · exact Or.inr h

/-- Well-formedness of the `selected` dict: keys are pairwise distinct
and each stored candidate's email is its key. -/
def KeysOk (sel : List (String × Candidate)) : Prop :=
  sel.Pairwise (fun p q => p.1 ≠ q.1) ∧ ∀ p ∈ sel, p.2.email = p.1

/-- `upsert` preserves `KeysOk`. -/
theorem keysOk_upsert (sel : List (String × Candidate)) (cand : Candidate)
    (h : KeysOk sel) : KeysOk (upsert sel cand) := by
  obtain ⟨hpw, hem⟩ := h
  constructor
  · clear hem
    induction sel with
    | nil => exact List.pairwise_singleton _ _
    | cons q rest ih =>
      obtain ⟨k, v⟩ := q
      rw [List.pairwise_cons] at hpw
      by_cases hk : k = cand.email
      · simp only [upsert, if_pos hk]
        rw [List.pairwise_cons]
        refine ⟨?_, hpw.2⟩
        intro p hp
        by_cases hd : cand.days > v.days
        · rw [if_pos hd]
          exact hpw.1 p hp
        · rw [if_neg hd]
          exact hpw.1 p hp
      · simp only [upsert, if_neg hk]
        rw [List.pairwise_cons]
        refine ⟨?_, ih hpw.2⟩
        intro p hp
        rcases upsert_mem rest cand p hp with h | h
        · exact hpw.1 p h
        · rw [h]
          exact hk
  · intro p hp
    rcases upsert_mem sel cand p hp with h | h
    · exact hem p h
    · rw [h]

/-- The per-client step either leaves the `selected` dict unchanged or
performs one `upsert`. -/
theorem collectStep_selected_cases (cfg : CollectConfig) (ib_id : Int)
    (acc : CollectState) (c : Client) :
    (collectStep cfg ib_id acc c).selected = acc.selected ∨
    ∃ cand, (collectStep cfg ib_id acc c).selected = upsert acc.selected cand := by
  simp only [collectStep]
  split
  · exact Or.inl rfl
  split
  · exact Or.inl rfl
  split
  · split
    · exact Or.inl rfl
    · exact Or.inr ⟨_, rfl⟩
  · split
    · exact Or.inl rfl
    · exact Or.inr ⟨_, rfl⟩

/-- A fold preserves any invariant its step preserves. -/
theorem foldl_inv {α β : Type} (Inv : β → Prop) (f : β → α → β)
    (hf : ∀ b a, Inv b → Inv (f b a)) :
    ∀ (l : List α) (b : β), Inv b → Inv (l.foldl f b) := by
  intro l
  induction l with
  | nil => exact fun b hb => hb
  | cons a as ih => exact fun b hb => ih (f b a) (hf b a hb)

/-- The whole collection fold keeps the `selected` dict well-formed. -/
theorem keysOk_collect_fold (cfg : CollectConfig) (inbounds : List Inbound) :
    KeysOk (inbounds.foldl (collectInbound cfg) ⟨[], []⟩).selected := by
  refine foldl_inv (fun st : CollectState => KeysOk st.selected)
    (collectInbound cfg) ?_ inbounds ⟨[], []⟩ ⟨List.Pairwise.nil, by intro p hp; cases hp⟩
  intro st ib hst
  match hs : ib.settings with
  | none =>
    simp only [collectInbound, hs]
    exact hst
  | some clients =>
    simp only [collectInbound, hs]
    refine foldl_inv (fun st : CollectState => KeysOk st.selected)
      (collectStep cfg ib.id) ?_ clients st hst
    intro st' c hst'
    rcases collectStep_selected_cases cfg ib.id st' c with h | ⟨cand, h⟩
    · rw [h]; exact hst'
    · rw [h]; exact keysOk_upsert _ _ hst'

/-- Inserting into the sorted list is a permutation. -/
theorem insertKeyed_perm (le : Candidate → Candidate → Bool) (a : Candidate)
    (l : List Candidate) : (insertKeyed le a l).Perm (a :: l) := by
  induction l with
  | nil => exact List.Perm.refl _
  | cons b bs ih =>
    simp only [insertKeyed]
    split
    · exact (ih.cons b).trans (List.Perm.swap a b bs)
    · exact List.Perm.refl _

/-- The stable sort is a permutation of its input. -/
theorem sortStable_perm (le : Candidate → Candidate → Bool) (l : List Candidate) :
    (sortStable le l).Perm l := by
  induction l with
  | nil => exact List.Perm.refl _
  | cons a as ih => exact (insertKeyed_perm le a (sortStable le as)).trans (ih.cons a)

/-- Replacement rule of the `selected` dict: when the email is already
present with value `v`, the `upsert` keeps the entry with the larger
days value (the newcomer only on strict increase). -/
theorem upsert_findEmail (sel : List (String × Candidate)) (cand v : Candidate)
    (h : findEmail cand.email sel = some v) :
    findEmail cand.email (upsert sel cand) =
      some (if cand.days > v.days then cand else v) := by
  induction sel with
  | nil => simp [findEmail] at h
  | cons q rest ih =>
    obtain ⟨k, w⟩ := q
    by_cases hk : k = cand.email
    · simp only [findEmail, if_pos hk] at h
      injection h with h
      subst h
      simp only [upsert, if_pos hk]
      by_cases hd : cand.days > w.days
      · rw [if_pos hd, if_pos hd]
        simp [findEmail, hk]
      · rw [if_neg hd, if_neg hd]
        simp [findEmail, hk]
    · simp only [findEmail, if_neg hk] at h
      simp only [upsert, if_neg hk, findEmail, if_neg hk]
      exact ih h

/-- C6: collection keeps at most one candidate per distinct email (the
final list has pairwise distinct emails); on a duplicate email the entry
with the strictly larger days value wins, a later candidate with equal
days does not replace an earlier one; concretely, duplicate emails with
days 5 and 12 (in either order) retain the days-12 candidate, and equal
days keep the first candidate. -/
theorem collect_dedup_spec :
    (∀ (cfg : CollectConfig) (inbounds : List Inbound),
      (collect_legacy_clients cfg inbounds).1.Pairwise (fun a b => a.email ≠ b.email)) ∧
    (∀ (sel : List (String × Candidate)) (cand v : Candidate),
      findEmail cand.email sel = some v →
      findEmail cand.email (upsert sel cand) =
        some (if cand.days > v.days then cand else v)) ∧
    (collect_legacy_clients ⟨false, 1, none, 0⟩
        [⟨1, some [⟨"user@x", "a", 5 * 86400000⟩, ⟨"user@x", "b", 12 * 86400000⟩]⟩]
      = ([⟨1, "user@x", "b", 12⟩], [])) ∧
    (collect_legacy_clients ⟨false, 1, none, 0⟩
        [⟨1, some [⟨"user@x", "a", 12 * 86400000⟩, ⟨"user@x", "b", 5 * 86400000⟩]⟩]
      = ([⟨1, "user@x", "a", 12⟩], [])) ∧
    (collect_legacy_clients ⟨false, 1, none, 0⟩
        [⟨1, some [⟨"user@x", "a", 12 * 86400000⟩, ⟨"user@x", "b", 12 * 86400000⟩]⟩]
      = ([⟨1, "user@x", "a", 12⟩], [])) := by
  refine ⟨?_, upsert_findEmail, by decide, by decide, by decide⟩
  intro cfg inbounds
  have hkeys := keysOk_collect_fold cfg inbounds
  obtain ⟨hpw, hem⟩ := hkeys
  have hsnd : ((inbounds.foldl (collectInbound cfg) ⟨[], []⟩).selected.map
      Prod.snd).Pairwise (fun a b => a.email ≠ b.email) := by
    rw [List.pairwise_map]
    refine hpw.imp_of_mem ?_
    intro p q hp hq hne
    rw [hem p hp, hem q hq]
    exact hne
  exact (List.Perm.pairwise_iff (fun h => (Ne.symm h)) (sortStable_perm emailLe _)).mpr hsnd

/-- Witness for `collect_dedup_spec` at a concrete input. -/
theorem collect_dedup_spec_witness :
    findEmail "e" (upsert [("e", ⟨1, "e", "a", 5⟩)] ⟨2, "e", "b", 12⟩) =
      some (if (12 : Int) > (5 : Int) then (⟨2, "e", "b", 12⟩ : Candidate)
        else ⟨1, "e", "a", 5⟩) :=
  collect_dedup_spec.2.1 [("e", ⟨1, "e", "a", 5⟩)] ⟨2, "e", "b", 12⟩ ⟨1, "e", "a", 5⟩ rfl

/-- `CHARSET` has 36 characters. -/
theorem CHARSET_length : CHARSET.length = 36 := rfl

/-- The charset character at a sampled index: `secrets.choice(CHARSET)`
always returns an element of `CHARSET`, so one random draw is one index
into it. -/
def charAt (j : Fin 36) : Char := CHARSET.get (Fin.cast CHARSET_length.symm j)

/-- Python `str.upper()`, code point by code point. -/
def upperStr (s : String) : String := ⟨s.data.map Char.toUpper⟩

/-- The `suffix_len` random draws of one loop iteration of
`generate_code`, taken from the stream of sampled charset indices
starting at stream position `pos`:
`"".join(secrets.choice(CHARSET) for _ in range(suffix_len))`. -/
def mkSuffix (stream : Nat → Fin 36) (pos len : Nat) : List Char :=
  (List.range len).map fun i => charAt (stream (pos + i))

/-- The `while True` retry loop of `generate_code`, with explicit fuel
(the loop has no syntactic bound; every returned code is fresh). Returns
the fresh code and the next unused stream position. -/
def generate_code_aux (stream : Nat → Fin 36) (codes : List String) (pfxU : String)
    (suffix_len : Nat) : Nat → Nat → Option (String × Nat)
  | 0, _ => none
  | fuel + 1, pos =>
    let code := pfxU ++ String.mk (mkSuffix stream pos suffix_len)
    if code ∈ codes then
      generate_code_aux stream codes pfxU suffix_len fuel (pos + suffix_len)
    else some (code, pos + suffix_len)

/-- `generate_code`: uppercase the prefix, draw
`max(total_length - len(prefix), 1)` random characters, retry on
collision, and add the fresh code to the accumulated set (returned here
as the updated code list). -/
def generate_code (stream : Nat → Fin 36) (existing_codes : List String)
    (pfx : String) (total_length : Nat) (pos fuel : Nat) :
    Option (String × Nat × List String) :=
  let pfxU := upperStr pfx
  let suffix_len := max (total_length - pfxU.length) 1
  match generate_code_aux stream existing_codes pfxU suffix_len fuel pos with
  | none => none
  | some (code, pos') => some (code, pos', code :: existing_codes)

/-- The code-assignment loop of `main`: one `generate_code` call per
retained candidate, threading the accumulated code set and the stream
position. -/
def assign_codes (stream : Nat → Fin 36) (pfx : String) (total_length fuel : Nat) :
    List Candidate → List String → Nat →
    Option (List (Candidate × String) × List String × Nat)
  | [], codes, pos => some ([], codes, pos)
  | c :: rest, codes, pos =>
    match generate_code stream codes pfx total_length pos fuel with
    | none => none
    | some (code, pos', codes') =>
      match assign_codes stream pfx total_length fuel rest codes' pos' with
      | none => none
      | some (out, codes'', pos'') => some ((c, code) :: out, codes'', pos'')

/-- A generated suffix has the requested length and draws only charset
characters. -/
theorem mkSuffix_shape (stream : Nat → Fin 36) (pos len : Nat) :
    (mkSuffix stream pos len).length = len ∧
    ∀ ch ∈ mkSuffix stream pos len, ch ∈ CHARSET := by
  constructor
  · simp [mkSuffix]
  · intro ch hch
    simp only [mkSuffix, List.mem_map] at hch
    obtain ⟨i, _, hi⟩ := hch
    rw [← hi]
    exact List.get_mem _ _ _

/-- Whatever `generate_code_aux` returns is outside the accumulated set
and is the uppercased prefix followed by one block of draws. -/
theorem generate_code_aux_spec (stream : Nat → Fin 36) (codes : List String)
    (pfxU : String) (suffix_len : Nat) :
    ∀ (fuel pos : Nat) (code : String) (pos' : Nat),
      generate_code_aux stream codes pfxU suffix_len fuel pos = some (code, pos') →
      code ∉ codes ∧ ∃ p, code = pfxU ++ String.mk (mkSuffix stream p suffix_len) := by
  intro fuel
  induction fuel with
  | zero =>
    intro pos code pos' h
    exact absurd h (by simp [generate_code_aux])
  | succ n ih =>
    intro pos code pos' h
    simp only [generate_code_aux] at h
    split at h
    · exact ih _ _ _ h
    · next hmem =>
      rw [Option.some.injEq, Prod.mk.injEq] at h
      refine ⟨?_, pos, h.1.symm⟩
      rw [← h.1]
      exact hmem

/-- Whatever `generate_code` returns is fresh, of the prescribed shape,
and is prepended to the accumulated set. -/
theorem generate_code_spec (stream : Nat → Fin 36) (existing : List String)
    (pfx : String) (total pos fuel : Nat) (code : String) (pos' : Nat)
    (codes' : List String)
    (h : generate_code stream existing pfx total pos fuel = some (code, pos', codes')) :
    code ∉ existing ∧ codes' = code :: existing ∧
    ∃ p, code = upperStr pfx ++
      String.mk (mkSuffix stream p (max (total - (upperStr pfx).length) 1)) := by
  simp only [generate_code] at h
  cases haux : generate_code_aux stream existing (upperStr pfx)
      (max (total - (upperStr pfx).length) 1) fuel pos with
  | none => rw [haux] at h; exact absurd h (by simp)
  | some r =>
    rw [haux] at h
    obtain ⟨c0, p0⟩ := r
    rw [Option.some.injEq, Prod.mk.injEq] at h
    obtain ⟨hc, hrest⟩ := h
    rw [Prod.mk.injEq] at hrest
    obtain ⟨hspec1, hspec2⟩ := generate_code_aux_spec stream existing (upperStr pfx)
      (max (total - (upperStr pfx).length) 1) fuel pos c0 p0 haux
    subst hc
    exact ⟨hspec1, hrest.2.symm, hspec2⟩

/-- Core invariants of the assignment loop: the generated codes are
pairwise distinct, all outside the code set the loop started from, and
each is the uppercased prefix followed by one block of charset draws of
length `max(total_length - len(prefix), 1)`. -/
theorem assign_codes_spec (stream : Nat → Fin 36) (pfx : String) (total fuel : Nat) :
    ∀ (cands : List Candidate) (codes : List String) (pos : Nat)
      (out : List (Candidate × String)) (codes' : List String) (pos' : Nat),
      assign_codes stream pfx total fuel cands codes pos = some (out, codes', pos') →
      out.Pairwise (fun a b => a.2 ≠ b.2) ∧
      (∀ p ∈ out, p.2 ∉ codes) ∧
      (∀ p ∈ out, ∃ suf : List Char, (∀ ch ∈ suf, ch ∈ CHARSET) ∧
        suf.length = max (total - (upperStr pfx).length) 1 ∧
        p.2 = upperStr pfx ++ String.mk suf) := by
  intro cands
  induction cands with
  | nil =>
    intro codes pos out codes' pos' h
    simp only [assign_codes, Option.some.injEq, Prod.mk.injEq] at h
    rw [← h.1]
    exact ⟨List.Pairwise.nil, fun p hp => absurd hp (List.not_mem_nil p),
      fun p hp => absurd hp (List.not_mem_nil p)⟩
  | cons c rest ih =>
    intro codes pos out codes' pos' h
    simp only [assign_codes] at h
    split at h
    · cases h
    · next code posMid codesMid hg =>
      split at h
      · cases h
      · next outRest codesEnd posEnd ha =>
        obtain ⟨hfresh, hcodesMid, pMid, hshape⟩ := generate_code_spec stream codes pfx total
          pos fuel code posMid codesMid hg
        obtain ⟨hrest1, hrest2, hfence⟩ := ih codesMid posMid outRest codesEnd posEnd ha
        simp only [Option.some.injEq, Prod.mk.injEq] at h
        rw [← h.1]
        refine ⟨?_, ?_, ?_⟩
        · rw [List.pairwise_cons]
          refine ⟨?_, hrest1⟩
          intro q hq
          have hqm := hrest2 q hq
          rw [hcodesMid] at hqm
          intro hcontra
          exact hqm (by rw [← hcontra]; exact List.mem_cons_self _ _)
        · intro p hp
          rcases List.mem_cons.mp hp with hp | hp
          · rw [hp]
            exact hfresh
          · have hpm := hrest2 p hp
            rw [hcodesMid] at hpm
            exact fun hc => hpm (List.mem_cons_of_mem _ hc)
        · intro p hp
          rcases List.mem_cons.mp hp with hp | hp
          · rw [hp]
            exact ⟨mkSuffix stream pMid (max (total - (upperStr pfx).length) 1),
              (mkSuffix_shape stream pMid _).2, (mkSuffix_shape stream pMid _).1, hshape⟩
          · exact hfence p hp

/-- The assignment loop yields exactly one code per retained candidate. -/
theorem assign_codes_length (stream : Nat → Fin 36) (pfx : String) (total fuel : Nat) :
    ∀ (cands : List Candidate) (codes : List String) (pos : Nat)
      (out : List (Candidate × String)) (codes' : List String) (pos' : Nat),
      assign_codes stream pfx total fuel cands codes pos = some (out, codes', pos') →
      out.length = cands.length := by
  intro cands
  induction cands with
  | nil =>
    intro codes pos out codes' pos' h
    simp only [assign_codes, Option.some.injEq, Prod.mk.injEq] at h
    rw [← h.1]
    rfl
  | cons c rest ih =>
    intro codes pos out codes' pos' h
    simp only [assign_codes] at h
    split at h
    · cases h
    · next code posMid codesMid hg =>
      split at h
      · cases h
      · next outRest codesEnd posEnd ha =>
        simp only [Option.some.injEq, Prod.mk.injEq] at h
        rw [← h.1]
        simp only [List.length_cons, ih codesMid posMid outRest codesEnd posEnd ha]

/-- A fixed sampling stream: every draw picks charset index 0 (`A`). -/
def strm0 : Nat → Fin 36 := fun _ => 0

/-- A fixed sampling stream: every draw picks charset index 1 (`B`). -/
def strm1 : Nat → Fin 36 := fun _ => 1

/-- C7 counterexample: with prefix `mig` and total length 2, the
generated code is `MIGA`: its length is 4, not the configured total
length 2, and it does not start with the configured (lower-case) prefix
but with its uppercased form. -/
theorem generated_code_shape_cex :
    (assign_codes strm0 "mig" 2 1 [⟨1, "user@x", "cid", 5⟩] [] 0).map
        (fun r => r.1.map Prod.snd) = some ["MIGA"] ∧
    ("MIGA" : String).length ≠ 2 ∧
    ("mig" : String).data.isPrefixOf ("MIGA" : String).data = false := by
  refine ⟨by decide, by decide, by decide⟩

/-- C7 (amended): within one assignment run no two generated codes are
equal and none equals a pre-existing code; every generated code is the
uppercased configured prefix followed by charset characters, its length
is `len(prefix) + max(total_length - len(prefix), 1)`, and in particular
it is exactly the configured total length whenever the total length
exceeds the prefix length. -/
theorem generated_codes_valid (stream : Nat → Fin 36) (pfx : String) (total fuel : Nat)
    (cands : List Candidate) (codes : List String) (pos : Nat)
    (out : List (Candidate × String)) (codes' : List String) (pos' : Nat)
    (h : assign_codes stream pfx total fuel cands codes pos = some (out, codes', pos')) :
    out.Pairwise (fun a b => a.2 ≠ b.2) ∧
    (∀ p ∈ out, p.2 ∉ codes) ∧
    (∀ p ∈ out, ∃ suf : List Char, (∀ ch ∈ suf, ch ∈ CHARSET) ∧
      p.2 = upperStr pfx ++ String.mk suf) ∧
    (∀ p ∈ out, p.2.length = (upperStr pfx).length + max (total - (upperStr pfx).length) 1) ∧
    ((upperStr pfx).length + 1 ≤ total → ∀ p ∈ out, p.2.length = total) := by
  obtain ⟨h1, h2, h3⟩ := assign_codes_spec stream pfx total fuel cands codes pos out codes' pos' h
  have hlen : ∀ p ∈ out,
      p.2.length = (upperStr pfx).length + max (total - (upperStr pfx).length) 1 := by
    intro p hp
    obtain ⟨suf, _, hsl, heq⟩ := h3 p hp
    rw [heq]
    show (upperStr pfx ++ String.mk suf).data.length = _
    rw [String.data_append, List.length_append]
    show (upperStr pfx).data.length + suf.length = _
    rw [hsl]
    rfl
  refine ⟨h1, h2, ?_, hlen, ?_⟩
  · intro p hp
    obtain ⟨suf, hchar, _, heq⟩ := h3 p hp
    exact ⟨suf, hchar, heq⟩
  · intro htot p hp
    rw [hlen p hp, Nat.max_eq_left (by omega : 1 ≤ total - (upperStr pfx).length)]
    omega

/-- Witness for `generated_codes_valid` at a concrete input. -/
theorem generated_codes_valid_witness :
    ("MIGA" : String) ∉ (["X"] : List String) :=
  (generated_codes_valid strm0 "MIG" 4 1 [⟨1, "user@x", "cid", 5⟩] ["X"] 0
    [(⟨1, "user@x", "cid", 5⟩, "MIGA")] ["MIGA", "X"] 1 (by decide)).2.1
    (⟨1, "user@x", "cid", 5⟩, "MIGA") (by decide)

/-- C10: whenever some candidate code (uppercased prefix followed by
`max(total_length - len(prefix), 1)` charset characters) is outside the
existing set, there is a sampling sequence on which `generate_code`
terminates at once and returns a code outside the set; and every
terminating run, whatever the samples and fuel, returns a code outside
the set. (The Python loop terminates with probability 1; in this
deterministic embedding of the random source that is rendered as
reachability of termination plus freshness of every terminating run.) -/
theorem generate_code_terminates (pfx : String) (total : Nat) (existing : List String)
    (hfree : ∃ suf : List Char, suf.length = max (total - (upperStr pfx).length) 1 ∧
      (∀ ch ∈ suf, ch ∈ CHARSET) ∧ (upperStr pfx ++ String.mk suf) ∉ existing) :
    (∀ pos : Nat, ∃ stream : Nat → Fin 36, ∃ code pos' codes',
      generate_code stream existing pfx total pos 1 = some (code, pos', codes') ∧
      code ∉ existing) ∧
    (∀ (stream : Nat → Fin 36) (pos fuel : Nat) (code : String) (pos' : Nat)
        (codes' : List String),
      generate_code stream existing pfx total pos fuel = some (code, pos', codes') →
      code ∉ existing) := by
  constructor
  · intro pos
    obtain ⟨suf, hlen, hmem, hnot⟩ := hfree
    have hidx : ∀ i : Fin suf.length, ∃ jj : Fin 36, charAt jj = suf.get i := by
      intro i
      obtain ⟨n, hn⟩ := List.get_of_mem (hmem _ (List.get_mem suf i.val i.isLt))
      exact ⟨Fin.cast CHARSET_length n, hn⟩
    choose j hj using hidx
    refine ⟨fun k => if h : k - pos < suf.length then j ⟨k - pos, h⟩ else 0,
      upperStr pfx ++ String.mk suf, pos + max (total - (upperStr pfx).length) 1,
      (upperStr pfx ++ String.mk suf) :: existing, ?_, hnot⟩
    have hmk : mkSuffix (fun k => if h : k - pos < suf.length then j ⟨k - pos, h⟩ else 0)
        pos (max (total - (upperStr pfx).length) 1) = suf := by
      apply List.ext_getElem
      · simp only [mkSuffix, List.length_map, List.length_range]
        rw [hlen]
      · intro i h1 h2
        simp only [mkSuffix, List.getElem_map, List.getElem_range]
        have hi : pos + i - pos < suf.length := by omega
        show charAt (if h : pos + i - pos < suf.length then j ⟨pos + i - pos, h⟩ else 0) = _
        rw [dif_pos hi,
          show (⟨pos + i - pos, hi⟩ : Fin suf.length) = ⟨i, h2⟩ from Fin.mk_eq_mk.mpr (by omega)]
        exact hj ⟨i, h2⟩
    have haux : generate_code_aux (fun k => if h : k - pos < suf.length then j ⟨k - pos, h⟩ else 0)
        existing (upperStr pfx) (max (total - (upperStr pfx).length) 1) 1 pos
        = some (upperStr pfx ++ String.mk suf,
            pos + max (total - (upperStr pfx).length) 1) := by
      show (if (upperStr pfx ++ String.mk
            (mkSuffix (fun k => if h : k - pos < suf.length then j ⟨k - pos, h⟩ else 0)
              pos (max (total - (upperStr pfx).length) 1))) ∈ existing then
          generate_code_aux (fun k => if h : k - pos < suf.length then j ⟨k - pos, h⟩ else 0)
            existing (upperStr pfx) (max (total - (upperStr pfx).length) 1) 0
            (pos + max (total - (upperStr pfx).length) 1)
        else some (upperStr pfx ++ String.mk
            (mkSuffix (fun k => if h : k - pos < suf.length then j ⟨k - pos, h⟩ else 0)
              pos (max (total - (upperStr pfx).length) 1)),
          pos + max (total - (upperStr pfx).length) 1)) = _
      rw [hmk, if_neg hnot]
    simp only [generate_code]
    rw [haux]
  · intro stream pos fuel code pos' codes' h
    exact (generate_code_spec stream existing pfx total pos fuel code pos' codes' h).1

/-- Witness for `generate_code_terminates` at a concrete input. -/
theorem generate_code_terminates_witness :
    ("MIGB" : String) ∉ (["MIGA"] : List String) :=
  (generate_code_terminates "MIG" 4 ["MIGA"]
    ⟨['B'], by decide, by decide, by decide⟩).2 strm1 0 1 "MIGB" 1 ["MIGB", "MIGA"]
    (by decide)

/-- One CSV row of `write_csv`, at value level (the writer stringifies
each field; stringification is injective on these values, so value-level
equality of rows coincides with equality of the written lines). `days`
and `promocode` are `none` for skipped rows — written blank. -/
structure CsvRow where
  email : String
  inbound_id : Int
  client_id : String
  days : Option Int
  promocode : Option String
  status : String
deriving DecidableEq

/-- The CSV row of a prepared candidate with its assigned code. -/
def preparedCsvRow (p : Candidate × String) : CsvRow :=
  ⟨p.1.email, p.1.inbound_id, p.1.client_id, some p.1.days, some p.2, "prepared"⟩

/-- The CSV row of a skipped candidate. -/
def skippedCsvRow (s : Skip) : CsvRow :=
  ⟨s.email, s.inbound_id, s.client_id, none, none, "skipped:" ++ s.reason⟩

/-- One row inserted into the `promocodes` table:
`INSERT INTO promocodes (code, duration, is_activated, activated_by, created_at)
VALUES (?, ?, 0, NULL, datetime('now'))`. The creation timestamp is not
modelled (no claim depends on it). -/
structure InsertRow where
  code : String
  duration : Int
  is_activated : Int
  activated_by : Option Int
deriving DecidableEq

/-- `insert_promocodes`: one insert per prepared row, unactivated and
with no activator. -/
def insert_promocodes (prepared_rows : List (Candidate × String)) : List InsertRow :=
  prepared_rows.map fun p => ⟨p.2, p.1.days, 0, none⟩

/-- The `main` pipeline after argument parsing and the existence checks:
collect candidates, assign codes, emit the CSV rows (prepared rows
first, then skipped rows), and, unless `dry_run`, the DB inserts.
Returns `none` only if the fuelled retry loop is exhausted. -/
def run_main (cfg : CollectConfig) (pfx : String) (total fuel : Nat) (dry_run : Bool)
    (inbounds : List Inbound) (existing : List String) (stream : Nat → Fin 36) :
    Option (List CsvRow × List InsertRow) :=
  let res := collect_legacy_clients cfg inbounds
  match assign_codes stream pfx total fuel res.1 existing 0 with
  | none => none
  | some (out, _, _) =>
    some (out.map preparedCsvRow ++ res.2.map skippedCsvRow,
      if dry_run then [] else insert_promocodes out)

/-- C8: with the same inputs, clock sample and random draws, a dry run
produces exactly the CSV of a non-dry run; the dry run performs zero
inserts, and the non-dry run inserts exactly one unactivated
(`is_activated = 0`), activator-less row per prepared candidate. -/
theorem dry_run_spec (cfg : CollectConfig) (pfx : String) (total fuel : Nat)
    (inbounds : List Inbound) (existing : List String) (stream : Nat → Fin 36) :
    ((run_main cfg pfx total fuel true inbounds existing stream).map Prod.fst
      = (run_main cfg pfx total fuel false inbounds existing stream).map Prod.fst) ∧
    (∀ csv ins, run_main cfg pfx total fuel true inbounds existing stream
      = some (csv, ins) → ins = []) ∧
    (∀ csv ins, run_main cfg pfx total fuel false inbounds existing stream
      = some (csv, ins) →
      ins.length = (collect_legacy_clients cfg inbounds).1.length ∧
      ∀ r ∈ ins, r.is_activated = 0 ∧ r.activated_by = none) := by
  simp only [run_main]
  cases hass : assign_codes stream pfx total fuel
      (collect_legacy_clients cfg inbounds).1 existing 0 with
  | none =>
    refine ⟨rfl, ?_, ?_⟩
    · intro csv ins h
      cases h
    · intro csv ins h
      cases h
  | some r =>
    obtain ⟨out, codesEnd, posEnd⟩ := r
    refine ⟨rfl, ?_, ?_⟩
    · intro csv ins h
      rw [Option.some.injEq, Prod.mk.injEq] at h
      exact h.2.symm
    · intro csv ins h
      rw [Option.some.injEq, Prod.mk.injEq] at h
      rw [← h.2]
      constructor
      · show (out.map _).length = _
        rw [List.length_map]
        exact assign_codes_length stream pfx total fuel
          (collect_legacy_clients cfg inbounds).1 existing 0 out codesEnd posEnd hass
      · intro r hr
        have hr2 : r ∈ List.map
            (fun p : Candidate × String =>
              (⟨p.2, p.1.days, 0, none⟩ : InsertRow)) out := hr
        obtain ⟨p, _, hp⟩ := List.mem_map.mp hr2
        rw [← hp]
        exact ⟨rfl, rfl⟩

/-- Witness for `dry_run_spec` at a concrete input. -/
theorem dry_run_spec_witness :
    (⟨"MIGA", 5, 0, none⟩ : InsertRow).is_activated = 0 ∧
    (⟨"MIGA", 5, 0, none⟩ : InsertRow).activated_by = none :=
  ((dry_run_spec ⟨false, 1, none, 0⟩ "MIG" 4 1
      [⟨1, some [⟨"user@x", "cid", 5 * 86400000⟩]⟩] [] strm0).2.2
    [⟨"user@x", 1, "cid", some 5, some "MIGA", "prepared"⟩] [⟨"MIGA", 5, 0, none⟩]
    (by decide)).2 ⟨"MIGA", 5, 0, none⟩ (by decide)
